import Mathlib

/-! Adafruit ADT7410 I2C temperature sensor driver.

A shallow embedding of `Adafruit_ADT7410.cpp` and the properties of its
initialisation, register primitives and temperature conversions.

Conventions of the embedding.

* The `TwoWire` object behind `_wire` and the platform `delay` are external
  to the driver.  They are modelled by a state that records every call the
  driver makes (`log`) and that scripts what the transport answers: the
  successive results of `endTransmission` (`status`) and of `read` (`rx`).
* `uint8_t` and `uint16_t` values are natural numbers; a conversion from a
  wider C type reduces modulo `2^8` or `2^16`.  `int` values are integers.
* `float` and `double` values are the rationals they denote.  `readTempF`
  rounds after every conversion and operation, to nearest with ties to even
  (`FloatFormat.round`): in the format `dbl` of `double` for the operand, the
  constants, the product and the sum, in binary32 for the result.  The format
  of `double` is a parameter, binary64 on most cores and binary32 on AVR.
  Every operation of `readTempC` is exact in binary32
  (`readTempC_rounding_exact`, `readTempC_eq_rounded`), so `readTempC` is
  written without rounding.
  Overflow is left out: every value that occurs is below `2^10`.
* The constants of `Adafruit_ADT7410.h` (register addresses and the default
  bus address) are parameters, collected in `Header`.
-/

namespace ADT7410

/-- Conversion of a C `int` to `uint8_t`. -/
def toUInt8 (x : Int) : Nat := (x % 256).toNat

/-- Conversion of a C `int` to `uint16_t`. -/
def toUInt16 (x : Int) : Nat := (x % 65536).toNat

/-- The cast `(int16_t)t` of a `uint16_t`: the two's-complement reading of
the 16 bits of `t`. -/
def toInt16 (t : Nat) : Int :=
  if t % 65536 < 32768 then (t % 65536 : Nat) else ((t % 65536 : Nat) : Int) - 65536

/-- Constants of `Adafruit_ADT7410.h`, which the driver uses by name only. -/
structure Header where
  /-- Default bus address of the device. -/
  ADT7410_I2CADDR_DEFAULT : Nat
  /-- Temperature register, most significant byte. -/
  ADT7410_REG__ADT7410_TEMPMSB : Nat
  /-- Configuration register. -/
  ADT7410_REG__ADT7410_CONFIG : Nat
  /-- Identification register. -/
  ADT7410_REG__ADT7410_ID : Nat
  /-- Software reset register. -/
  ADT7410_REG__ADT7410_SWRST : Nat

/-- The constants as the ADT7410 data sheet gives them; they serve as a
concrete instance of `Header`. -/
def datasheet : Header := ⟨0x48, 0x00, 0x03, 0x0B, 0x2F⟩

/-- One call made by the driver on the transport or on the platform. -/
inductive BusOp where
  /-- The call `_wire->begin()`. -/
  | wireBegin
  /-- The call `_wire->beginTransmission(addr)`. -/
  | beginTransmission (addr : Nat)
  /-- The call `_wire->write(b)`. -/
  | write (b : Nat)
  /-- The call `_wire->endTransmission(stop)`; the call without argument sends a stop. -/
  | endTransmission (stop : Bool)
  /-- The call `_wire->requestFrom(addr, n)`. -/
  | requestFrom (addr : Nat) (n : Nat)
  /-- The call `_wire->read()`. -/
  | read
  /-- The call `delay(ms)`. -/
  | delay (ms : Nat)
  deriving DecidableEq

/-- State of the transport as the driver sees it. -/
structure TwoWire where
  /-- Calls made so far, oldest first. -/
  log : List BusOp
  /-- Results the coming `endTransmission` calls return, in order. -/
  status : List Nat
  /-- Results the coming `read` calls return, in order. -/
  rx : List Int
  deriving DecidableEq

namespace TwoWire

/-- Append one call to the log. -/
def record (w : TwoWire) (op : BusOp) : TwoWire :=
  ⟨w.log ++ [op], w.status, w.rx⟩

/-- The `uint8_t` the next `endTransmission` returns; `0` once the script is used up. -/
def nextStatus (w : TwoWire) : Nat := w.status.headD 0 % 256

/-- The `int` the next `read` returns; `-1` (nothing available) once the script is used up. -/
def nextRead (w : TwoWire) : Int := w.rx.headD (-1)

/-- The method `TwoWire::begin()`. -/
def begin (w : TwoWire) : TwoWire := w.record BusOp.wireBegin

/-- The method `TwoWire::beginTransmission(addr)`. -/
def beginTransmission (addr : Nat) (w : TwoWire) : TwoWire :=
  w.record (BusOp.beginTransmission addr)

/-- The method `TwoWire::write(b)`. -/
def write (b : Nat) (w : TwoWire) : TwoWire := w.record (BusOp.write b)

/-- The method `TwoWire::endTransmission(stop)`, with the status it returns. -/
def endTransmission (stop : Bool) (w : TwoWire) : Nat × TwoWire :=
  (w.nextStatus, ⟨w.log ++ [BusOp.endTransmission stop], w.status.tail, w.rx⟩)

/-- The method `TwoWire::requestFrom(addr, n)`; the driver ignores what it returns. -/
def requestFrom (addr n : Nat) (w : TwoWire) : TwoWire :=
  w.record (BusOp.requestFrom addr n)

/-- The method `TwoWire::read()`, with the `int` it returns. -/
def read (w : TwoWire) : Int × TwoWire :=
  (w.nextRead, ⟨w.log ++ [BusOp.read], w.status, w.rx.tail⟩)

end TwoWire

/-- The platform call `delay(ms)`. -/
def delay (ms : Nat) (w : TwoWire) : TwoWire := w.record (BusOp.delay ms)

/-- The driver object: the bus address it stores. The `_wire` pointer is the
`TwoWire` state passed to every method. -/
structure Adafruit_ADT7410 where
  /-- Stored bus address, a `uint8_t`. -/
  _i2caddr : Nat
  deriving DecidableEq

/-- The method `Adafruit_ADT7410::read8`. -/
def read8 (d : Adafruit_ADT7410) (reg : Nat) (w : TwoWire) : Nat × TwoWire :=
  let val : Nat := 0xFF
  let w := w.beginTransmission d._i2caddr
  let w := w.write reg
  let (state, w) := w.endTransmission false
  if 0 = state then
    let w := w.requestFrom d._i2caddr 2
    let (r, w) := w.read
    (toUInt8 r, w)
  else
    (val, w)

/-- The method `Adafruit_ADT7410::write8`. -/
def write8 (d : Adafruit_ADT7410) (reg value : Nat) (w : TwoWire) : TwoWire :=
  let w := w.beginTransmission d._i2caddr
  let w := w.write reg
  let w := w.write value
  (w.endTransmission true).2

/-- The method `Adafruit_ADT7410::read16`. -/
def read16 (d : Adafruit_ADT7410) (reg : Nat) (w : TwoWire) : Nat × TwoWire :=
  let val : Nat := 0xFFFF
  let w := w.beginTransmission d._i2caddr
  let w := w.write reg
  let (state, w) := w.endTransmission false
  if 0 = state then
    let w := w.requestFrom d._i2caddr 2
    let (r, w) := w.read
    let val := toUInt16 r
    let val := toUInt16 ((val : Int) * 256)
    let (r, w) := w.read
    let val := toUInt16 (Int.lor (val : Int) r)
    (val, w)
  else
    (val, w)

/-- The method `Adafruit_ADT7410::write16`. -/
def write16 (d : Adafruit_ADT7410) (reg value : Nat) (w : TwoWire) : TwoWire :=
  let w := w.beginTransmission d._i2caddr
  let w := w.write (reg % 256)
  let w := w.write (value / 256 % 256)
  let w := w.write ((value &&& 0xFF) % 256)
  (w.endTransmission true).2

/-- The method `Adafruit_ADT7410::init`. -/
def init (H : Header) (d : Adafruit_ADT7410) (w : TwoWire) : Bool × TwoWire :=
  let w := w.begin
  let (b, w) := read8 d (H.ADT7410_REG__ADT7410_ID % 256) w
  let id := b &&& 0xF8
  if id ≠ 0xC8 then
    (false, w)
  else
    let w := w.beginTransmission d._i2caddr
    let w := w.write (H.ADT7410_REG__ADT7410_SWRST % 256)
    let w := (w.endTransmission true).2
    let w := write8 d (H.ADT7410_REG__ADT7410_CONFIG % 256) 0x80 w
    let w := delay 10 w
    (true, w)

/-- The overload `Adafruit_ADT7410::begin()`; `w` is the state of the global `Wire`. -/
def begin (H : Header) (w : TwoWire) : Bool × Adafruit_ADT7410 × TwoWire :=
  let d : Adafruit_ADT7410 := ⟨H.ADT7410_I2CADDR_DEFAULT % 256⟩
  ((init H d w).1, d, (init H d w).2)

/-- The overload `Adafruit_ADT7410::begin(TwoWire *wire)`; `w` is the state of `*wire`. -/
def beginWire (H : Header) (w : TwoWire) : Bool × Adafruit_ADT7410 × TwoWire :=
  let d : Adafruit_ADT7410 := ⟨H.ADT7410_I2CADDR_DEFAULT % 256⟩
  ((init H d w).1, d, (init H d w).2)

/-- The overload `Adafruit_ADT7410::begin(uint8_t addr)`; `w` is the state of the global `Wire`. -/
def beginAddr (H : Header) (addr : Nat) (w : TwoWire) : Bool × Adafruit_ADT7410 × TwoWire :=
  let d : Adafruit_ADT7410 := ⟨addr⟩
  ((init H d w).1, d, (init H d w).2)

/-- The overload `Adafruit_ADT7410::begin(uint8_t addr, TwoWire *wire)`; `w` is the state of `*wire`. -/
def beginAddrWire (H : Header) (addr : Nat) (w : TwoWire) : Bool × Adafruit_ADT7410 × TwoWire :=
  let d : Adafruit_ADT7410 := ⟨addr⟩
  ((init H d w).1, d, (init H d w).2)

/-- The method `Adafruit_ADT7410::readTempC`. -/
def readTempC (H : Header) (d : Adafruit_ADT7410) (w : TwoWire) : ℚ × TwoWire :=
  let (t, w) := read16 d (H.ADT7410_REG__ADT7410_TEMPMSB % 256) w
  let temp : ℚ := (toInt16 t : Int)
  let temp := temp / 128.0
  (temp, w)

/-- A binary floating-point format: the number of significand bits, hidden
bit included, and the least exponent of a normal number. -/
structure FloatFormat where
  /-- Significand bits, hidden bit included. -/
  prec : Nat
  /-- Least exponent of a normal number. -/
  emin : Int
  deriving DecidableEq

/-- The format of `float`. -/
def binary32 : FloatFormat := ⟨24, -126⟩

/-- The format of `double` where it has 64 bits. -/
def binary64 : FloatFormat := ⟨53, -1022⟩

/-- The integer nearest to `y`, the even one of the two when `y` lies half way. -/
def roundHalfEven (y : ℚ) : Int :=
  let f := ⌊y⌋
  let r := y - f
  if r < 1 / 2 then f
  else if 1 / 2 < r then f + 1
  else if f % 2 = 0 then f else f + 1

/-- Floor of the binary logarithm of `n` by repeated halving, `0` for `n < 2`;
`n` halvings at most are needed, so `fuel = n` is enough (`log2Fuel_spec`). -/
def log2Fuel : Nat → Nat → Nat
  | 0, _ => 0
  | fuel + 1, n => if n < 2 then 0 else log2Fuel fuel (n / 2) + 1

/-- The binary exponent of a nonzero `x`: the `e` with `2^e ≤ |x| < 2^(e+1)`
(`binExp_spec`). -/
def binExp (x : ℚ) : Int :=
  let e : Int := (log2Fuel x.num.natAbs x.num.natAbs : Int) - (log2Fuel x.den x.den : Int)
  if |x| < (2 : ℚ) ^ e then e - 1 else e

/-- Rounding of `x` to the format `f`, to nearest with ties to even: `x` is
rounded to a multiple of the unit in the last place `2^(e - (prec - 1))`, where
`e` is the exponent of `x`, or `emin` when `x` is subnormal. -/
def FloatFormat.round (f : FloatFormat) (x : ℚ) : ℚ :=
  if x = 0 then 0
  else
    let e := max (binExp x) f.emin
    let q : ℚ := (2 : ℚ) ^ (e - ((f.prec : Int) - 1))
    (roundHalfEven (x / q) : ℚ) * q

/-- The method `Adafruit_ADT7410::readTempF`, where `double` has the format
`dbl`: the `float` operand converts to `double`, the product and the sum are
`double` operations, and the assignment converts the sum to `float`. -/
def readTempF (H : Header) (dbl : FloatFormat) (d : Adafruit_ADT7410) (w : TwoWire) :
    ℚ × TwoWire :=
  let (t, w) := read16 d (H.ADT7410_REG__ADT7410_TEMPMSB % 256) w
  let temp : ℚ := binary32.round (toInt16 t : Int)
  let temp := binary32.round
    (dbl.round (dbl.round (dbl.round temp * dbl.round 0.0140625) + dbl.round 32.0))
  (temp, w)


/-! ## Auxiliary facts on the conversions and the register primitives -/

theorem toUInt8_lt (x : Int) : toUInt8 x < 256 := by
  unfold toUInt8; omega

theorem toUInt16_lt (x : Int) : toUInt16 x < 65536 := by
  unfold toUInt16; omega

theorem toUInt8_natCast (n : Nat) (h : n < 256) : toUInt8 (n : Int) = n := by
  unfold toUInt8; omega

theorem toUInt16_natCast (n : Nat) (h : n < 65536) : toUInt16 (n : Int) = n := by
  unfold toUInt16; omega

/-- The primitive `read8` when the write phase reports a failure. -/
theorem read8_of_status_ne_zero (d : Adafruit_ADT7410) (reg : Nat) (w : TwoWire)
    (h : w.nextStatus ≠ 0) :
    read8 d reg w =
      (0xFF, ⟨w.log ++ [BusOp.beginTransmission d._i2caddr, BusOp.write reg,
                BusOp.endTransmission false], w.status.tail, w.rx⟩) := by
  have h0 : ¬ (0 = w.status.head?.getD 0 % 256) := by
    intro e; exact h (by simpa [TwoWire.nextStatus] using e.symm)
  simp [read8, TwoWire.beginTransmission, TwoWire.write, TwoWire.endTransmission,
    TwoWire.record, TwoWire.nextStatus, h0]

/-- The primitive `read8` when the write phase succeeds. -/
theorem read8_of_status_eq_zero (d : Adafruit_ADT7410) (reg : Nat) (w : TwoWire)
    (h : w.nextStatus = 0) :
    read8 d reg w =
      (toUInt8 w.nextRead,
        ⟨w.log ++ [BusOp.beginTransmission d._i2caddr, BusOp.write reg,
            BusOp.endTransmission false, BusOp.requestFrom d._i2caddr 2, BusOp.read],
          w.status.tail, w.rx.tail⟩) := by
  have h0 : 0 = w.status.head?.getD 0 % 256 := by
    simpa [TwoWire.nextStatus] using h.symm
  simp [read8, TwoWire.beginTransmission, TwoWire.write, TwoWire.endTransmission,
    TwoWire.requestFrom, TwoWire.read, TwoWire.record, TwoWire.nextStatus, TwoWire.nextRead,
    ← h0]

/-- The primitive `read16` when the write phase reports a failure. -/
theorem read16_of_status_ne_zero (d : Adafruit_ADT7410) (reg : Nat) (w : TwoWire)
    (h : w.nextStatus ≠ 0) :
    read16 d reg w =
      (0xFFFF, ⟨w.log ++ [BusOp.beginTransmission d._i2caddr, BusOp.write reg,
                BusOp.endTransmission false], w.status.tail, w.rx⟩) := by
  have h0 : ¬ (0 = w.status.head?.getD 0 % 256) := by
    intro e; exact h (by simpa [TwoWire.nextStatus] using e.symm)
  simp [read16, TwoWire.beginTransmission, TwoWire.write, TwoWire.endTransmission,
    TwoWire.record, TwoWire.nextStatus, h0]

/-- The primitive `read16` when the write phase succeeds. -/
theorem read16_of_status_eq_zero (d : Adafruit_ADT7410) (reg : Nat) (w : TwoWire)
    (h : w.nextStatus = 0) :
    read16 d reg w =
      (toUInt16 (Int.lor ((toUInt16 ((toUInt16 w.nextRead : Int) * 256) : Nat) : Int)
          (w.rx.tail.headD (-1))),
        ⟨w.log ++ [BusOp.beginTransmission d._i2caddr, BusOp.write reg,
            BusOp.endTransmission false, BusOp.requestFrom d._i2caddr 2, BusOp.read,
            BusOp.read],
          w.status.tail, w.rx.tail.tail⟩) := by
  have h0 : 0 = w.status.head?.getD 0 % 256 := by
    simpa [TwoWire.nextStatus] using h.symm
  simp [read16, TwoWire.beginTransmission, TwoWire.write, TwoWire.endTransmission,
    TwoWire.requestFrom, TwoWire.read, TwoWire.record, TwoWire.nextStatus, TwoWire.nextRead,
    ← h0]

theorem read8_lt (d : Adafruit_ADT7410) (reg : Nat) (w : TwoWire) :
    (read8 d reg w).1 < 256 := by
  by_cases h : w.nextStatus = 0
  · rw [read8_of_status_eq_zero d reg w h]; exact toUInt8_lt _
  · rw [read8_of_status_ne_zero d reg w h]; show (0xFF : Nat) < 256; decide

theorem read16_lt (d : Adafruit_ADT7410) (reg : Nat) (w : TwoWire) :
    (read16 d reg w).1 < 65536 := by
  by_cases h : w.nextStatus = 0
  · rw [read16_of_status_eq_zero d reg w h]; exact toUInt16_lt _
  · rw [read16_of_status_ne_zero d reg w h]; show (0xFFFF : Nat) < 65536; decide

/-- The cast to `int16_t` of a value that fits 16 bits, as a rational. -/
theorem toInt16_cast (v : Nat) (h : v < 65536) :
    ((toInt16 v : Int) : ℚ) = if v < 32768 then (v : ℚ) else (v : ℚ) - 65536 := by
  unfold toInt16
  rw [Nat.mod_eq_of_lt h]
  split <;> simp

theorem readTempC_fst (H : Header) (d : Adafruit_ADT7410) (w : TwoWire) :
    (readTempC H d w).1 =
      ((toInt16 (read16 d (H.ADT7410_REG__ADT7410_TEMPMSB % 256) w).1 : Int) : ℚ) / 128 := by
  simp only [readTempC]
  norm_num

theorem readTempF_fst (H : Header) (dbl : FloatFormat) (d : Adafruit_ADT7410) (w : TwoWire) :
    (readTempF H dbl d w).1 =
      binary32.round
        (dbl.round
          (dbl.round
            (dbl.round
              (binary32.round
                ((toInt16 (read16 d (H.ADT7410_REG__ADT7410_TEMPMSB % 256) w).1 : Int) : ℚ)) *
              dbl.round 0.0140625) +
            dbl.round 32.0)) := by
  simp only [readTempF]

theorem toInt16_bounds (t : Nat) : -32768 ≤ toInt16 t ∧ toInt16 t ≤ 32767 := by
  unfold toInt16
  split <;> constructor <;> omega

/-! ## Rounding -/

/-- The halving loop computes the floor of the binary logarithm. -/
theorem log2Fuel_spec : ∀ (fuel n : Nat), n ≤ fuel → 0 < n →
    2 ^ log2Fuel fuel n ≤ n ∧ n < 2 ^ (log2Fuel fuel n + 1) := by
  intro fuel
  induction fuel with
  | zero => intro n h1 h2; omega
  | succ fuel ih =>
    intro n h1 h2
    unfold log2Fuel
    by_cases hn : n < 2
    · rw [if_pos hn]
      have : n = 1 := by omega
      subst this
      decide
    · rw [if_neg hn]
      obtain ⟨l, u⟩ := ih (n / 2) (by omega) (by omega)
      have e1 : 2 ^ (log2Fuel fuel (n / 2) + 1) = 2 * 2 ^ log2Fuel fuel (n / 2) := by
        rw [pow_succ]; ring
      have e2 : 2 ^ (log2Fuel fuel (n / 2) + 1 + 1) = 4 * 2 ^ log2Fuel fuel (n / 2) := by
        rw [pow_succ, pow_succ]; ring
      rw [e1] at u
      rw [e1, e2]
      constructor <;> omega

/-- The exponent `binExp x` brackets `|x|` between two powers of two. -/
theorem binExp_spec (x : ℚ) (hx : x ≠ 0) :
    (2 : ℚ) ^ binExp x ≤ |x| ∧ |x| < (2 : ℚ) ^ (binExp x + 1) := by
  have hn : 0 < x.num.natAbs := Int.natAbs_pos.mpr (Rat.num_ne_zero.mpr hx)
  have hd : 0 < x.den := x.den_pos
  obtain ⟨na, nb⟩ := log2Fuel_spec _ _ (le_refl x.num.natAbs) hn
  obtain ⟨da, db⟩ := log2Fuel_spec _ _ (le_refl x.den) hd
  have habs : |x| = (x.num.natAbs : ℚ) / (x.den : ℚ) := by
    conv_lhs => rw [← Rat.num_div_den x]
    rw [abs_div, Nat.cast_natAbs, Int.cast_abs, abs_of_pos (by exact_mod_cast hd : (0 : ℚ) < x.den)]
  have na' : ((2 : ℚ) ^ log2Fuel x.num.natAbs x.num.natAbs) ≤ (x.num.natAbs : ℚ) := by
    exact_mod_cast na
  have nb' : (x.num.natAbs : ℚ) < (2 : ℚ) ^ (log2Fuel x.num.natAbs x.num.natAbs + 1) := by
    exact_mod_cast nb
  have da' : ((2 : ℚ) ^ log2Fuel x.den x.den) ≤ (x.den : ℚ) := by
    exact_mod_cast da
  have db' : (x.den : ℚ) < (2 : ℚ) ^ (log2Fuel x.den x.den + 1) := by
    exact_mod_cast db
  have hdq : (0 : ℚ) < x.den := by exact_mod_cast hd
  have hnq : (0 : ℚ) < x.num.natAbs := by exact_mod_cast hn
  unfold binExp
  simp only []
  set a := log2Fuel x.num.natAbs x.num.natAbs with ha
  set b := log2Fuel x.den x.den with hb
  have two_pos : ∀ m : ℕ, (0 : ℚ) < 2 ^ m := fun m => by positivity
  by_cases hlt : |x| < (2 : ℚ) ^ ((a : Int) - (b : Int))
  · rw [if_pos hlt]
    refine ⟨?_, by simpa using hlt⟩
    have : (2 : ℚ) ^ ((a : Int) - (b : Int) - 1) = 2 ^ a / 2 ^ (b + 1) := by
      rw [show (a : Int) - (b : Int) - 1 = (a : Int) - ((b + 1 : ℕ) : Int) by push_cast; ring,
        zpow_sub₀ (by norm_num : (2 : ℚ) ≠ 0), zpow_natCast, zpow_natCast]
    rw [this, habs, div_le_div_iff₀ (two_pos _) hdq]
    calc (2 : ℚ) ^ a * x.den ≤ x.num.natAbs * x.den := by
          apply mul_le_mul_of_nonneg_right na' hdq.le
      _ ≤ x.num.natAbs * 2 ^ (b + 1) := by
          apply mul_le_mul_of_nonneg_left db'.le hnq.le
  · rw [if_neg hlt]
    refine ⟨not_lt.mp hlt, ?_⟩
    have : (2 : ℚ) ^ ((a : Int) - (b : Int) + 1) = 2 ^ (a + 1) / 2 ^ b := by
      rw [show (a : Int) - (b : Int) + 1 = ((a + 1 : ℕ) : Int) - (b : Int) by push_cast; ring,
        zpow_sub₀ (by norm_num : (2 : ℚ) ≠ 0), zpow_natCast, zpow_natCast]
    rw [this, habs, div_lt_div_iff₀ hdq (two_pos _)]
    calc (x.num.natAbs : ℚ) * 2 ^ b ≤ x.num.natAbs * x.den := by
          apply mul_le_mul_of_nonneg_left da' hnq.le
      _ < 2 ^ (a + 1) * x.den := by
          apply mul_lt_mul_of_pos_right nb' hdq

theorem binExp_lt (x : ℚ) (hx : x ≠ 0) (k : Int) (h : |x| < (2 : ℚ) ^ k) : binExp x < k := by
  have h1 := (binExp_spec x hx).1
  have h2 : (2 : ℚ) ^ binExp x < (2 : ℚ) ^ k := lt_of_le_of_lt h1 h
  exact (zpow_lt_zpow_iff_right₀ (by norm_num : (1 : ℚ) < 2)).mp h2

theorem roundHalfEven_err (y : ℚ) : |(roundHalfEven y : ℚ) - y| ≤ 1 / 2 := by
  have h1 := Int.floor_le y
  have h2 := Int.lt_floor_add_one y
  unfold roundHalfEven
  simp only []
  rw [abs_le]
  split_ifs <;> push_cast <;> constructor <;> linarith

theorem roundHalfEven_intCast (n : Int) : roundHalfEven (n : ℚ) = n := by
  simp [roundHalfEven]

theorem two_zpow_pos (s : Int) : (0 : ℚ) < (2 : ℚ) ^ s := zpow_pos (by norm_num) s

theorem two_zpow_le {s t : Int} (h : s ≤ t) : (2 : ℚ) ^ s ≤ (2 : ℚ) ^ t :=
  zpow_le_zpow_right₀ (by norm_num) h

/-- Rounding error of one operation: below `2^k`, at most half a unit in the last place. -/
theorem round_err (f : FloatFormat) (x : ℚ) (k : Int) (hk : f.emin < k)
    (hx : |x| < (2 : ℚ) ^ k) :
    |f.round x - x| ≤ (2 : ℚ) ^ (k - 1 - (f.prec : Int)) := by
  unfold FloatFormat.round
  by_cases h0 : x = 0
  · rw [if_pos h0, h0]; simp; exact (two_zpow_pos _).le
  · rw [if_neg h0]
    simp only []
    have he : max (binExp x) f.emin ≤ k - 1 := by
      have := binExp_lt x h0 k hx
      exact max_le (by omega) (by omega)
    set s : Int := max (binExp x) f.emin - ((f.prec : Int) - 1) with hs
    have hq : (0 : ℚ) < (2 : ℚ) ^ s := two_zpow_pos s
    have hr := roundHalfEven_err (x / (2 : ℚ) ^ s)
    have e1 : (roundHalfEven (x / (2 : ℚ) ^ s) : ℚ) * (2 : ℚ) ^ s - x
        = ((roundHalfEven (x / (2 : ℚ) ^ s) : ℚ) - x / (2 : ℚ) ^ s) * (2 : ℚ) ^ s := by
      field_simp
    rw [e1, abs_mul, abs_of_pos hq]
    have e2 : (2 : ℚ) ^ (k - 1 - (f.prec : Int)) = (1 / 2) * (2 : ℚ) ^ (k - (f.prec : Int)) := by
      rw [show k - 1 - (f.prec : Int) = (k - (f.prec : Int)) - 1 by ring,
        zpow_sub_one₀ (by norm_num : (2 : ℚ) ≠ 0)]
      ring
    rw [e2]
    have e3 : (2 : ℚ) ^ s ≤ (2 : ℚ) ^ (k - (f.prec : Int)) := two_zpow_le (by omega)
    calc |(roundHalfEven (x / (2 : ℚ) ^ s) : ℚ) - x / (2 : ℚ) ^ s| * (2 : ℚ) ^ s
        ≤ (1 / 2) * (2 : ℚ) ^ s := mul_le_mul_of_nonneg_right hr hq.le
      _ ≤ (1 / 2) * (2 : ℚ) ^ (k - (f.prec : Int)) :=
          mul_le_mul_of_nonneg_left e3 (by norm_num)

/-- A dyadic number `n / 2^j` whose significand fits the format is not changed by rounding. -/
theorem round_dyadic (f : FloatFormat) (n : Int) (j : Nat) (k : Int) (hk : f.emin < k)
    (hx : |(n : ℚ) / (2 : ℚ) ^ j| < (2 : ℚ) ^ k) (hj : k - (f.prec : Int) ≤ -(j : Int)) :
    f.round ((n : ℚ) / (2 : ℚ) ^ j) = (n : ℚ) / (2 : ℚ) ^ j := by
  unfold FloatFormat.round
  by_cases h0 : (n : ℚ) / (2 : ℚ) ^ j = 0
  · rw [if_pos h0, h0]
  · rw [if_neg h0]
    simp only []
    have he : max (binExp ((n : ℚ) / (2 : ℚ) ^ j)) f.emin ≤ k - 1 := by
      have := binExp_lt _ h0 k hx
      exact max_le (by omega) (by omega)
    set s : Int := max (binExp ((n : ℚ) / (2 : ℚ) ^ j)) f.emin - ((f.prec : Int) - 1) with hs
    have hsj : s ≤ -(j : Int) := by omega
    obtain ⟨i, hi⟩ : ∃ i : Nat, (i : Int) = -(j : Int) - s := ⟨(-(j : Int) - s).toNat, by omega⟩
    have hs' : s = -((j + i : Nat) : Int) := by push_cast; omega
    have hq : (2 : ℚ) ^ s = 1 / (2 : ℚ) ^ (j + i) := by
      rw [hs', zpow_neg, zpow_natCast]; simp
    have hdiv : (n : ℚ) / (2 : ℚ) ^ j / (2 : ℚ) ^ s = ((n * 2 ^ i : Int) : ℚ) := by
      rw [hq]; push_cast; field_simp; ring
    rw [hdiv, roundHalfEven_intCast, hq]
    push_cast; field_simp; ring

/-- The rounding error in a format at least as fine as binary32. -/
theorem round_err24 (f : FloatFormat) (hp : 24 ≤ f.prec) (he : f.emin ≤ -126) (x : ℚ) (k : Int)
    (hk : -126 < k) (hx : |x| < (2 : ℚ) ^ k) :
    |f.round x - x| ≤ (2 : ℚ) ^ (k - 25) :=
  le_trans (round_err f x k (by omega) hx) (two_zpow_le (by omega))

/-- Integers below `2^16` are not changed by rounding. -/
theorem round_int24 (f : FloatFormat) (hp : 24 ≤ f.prec) (he : f.emin ≤ -126) (n : Int)
    (hn : |(n : ℚ)| < 65536) : f.round (n : ℚ) = n := by
  have hx : |(n : ℚ) / (2 : ℚ) ^ 0| < (2 : ℚ) ^ (16 : Int) := by
    norm_num; exact hn
  have h := round_dyadic f n 0 16 (by omega) hx (by simp; omega)
  simpa using h

/-- The rounded evaluation of `readTempF` stays within `2^-14` of the exact
value of `n * (9/640) + 32`, for every `int16_t` value `n`. -/
theorem round_fahrenheit_err (dbl : FloatFormat) (hp : 24 ≤ dbl.prec) (he : dbl.emin ≤ -126)
    (n : Int) (h1 : -32768 ≤ n) (h2 : n ≤ 32767) :
    |binary32.round
        (dbl.round
          (dbl.round (dbl.round (binary32.round (n : ℚ)) * dbl.round 0.0140625) +
            dbl.round 32.0)) - ((n : ℚ) * (9 / 640) + 32)| ≤ 1 / 16384 := by
  have hN1 : (-32768 : ℚ) ≤ (n : ℚ) := by exact_mod_cast h1
  have hN2 : (n : ℚ) ≤ 32767 := by exact_mod_cast h2
  have hNabs : |(n : ℚ)| ≤ 32768 := abs_le.mpr ⟨hN1, by linarith⟩
  have r1 : binary32.round (n : ℚ) = n :=
    round_int24 binary32 (by decide) (by decide) n (lt_of_le_of_lt hNabs (by norm_num))
  have r2 : dbl.round (n : ℚ) = n :=
    round_int24 dbl hp he n (lt_of_le_of_lt hNabs (by norm_num))
  have r3 : dbl.round 32.0 = 32 := by
    have := round_int24 dbl hp he 32 (by norm_num)
    norm_num at this ⊢
    exact this
  have hc : |dbl.round 0.0140625 - 9 / 640| ≤ 1 / 2147483648 := by
    have := round_err24 dbl hp he (9 / 640) (-6) (by norm_num) (by norm_num [abs_of_pos])
    norm_num at this ⊢
    exact this
  rw [r1, r2, r3]
  set c := dbl.round 0.0140625 with hcdef
  have hX : |(n : ℚ) * (c - 9 / 640)| ≤ 1 / 65536 := by
    rw [abs_mul]
    calc |(n : ℚ)| * |c - 9 / 640| ≤ 32768 * (1 / 2147483648) :=
          mul_le_mul hNabs hc (abs_nonneg _) (by norm_num)
      _ = 1 / 65536 := by norm_num
  have hprod : (n : ℚ) * c = (n : ℚ) * (9 / 640) + (n : ℚ) * (c - 9 / 640) := by ring
  obtain ⟨hX1, hX2⟩ := abs_le.mp hX
  have hPb : |(n : ℚ) * c| < (2 : ℚ) ^ (9 : Int) := by
    rw [abs_lt]; norm_num; constructor <;> linarith
  have hP := round_err24 dbl hp he ((n : ℚ) * c) 9 (by norm_num) hPb
  set P := dbl.round ((n : ℚ) * c) with hPdef
  norm_num at hP
  obtain ⟨hP1, hP2⟩ := abs_le.mp hP
  have hSb : |P + 32| < (2 : ℚ) ^ (9 : Int) := by
    rw [abs_lt]; norm_num; constructor <;> linarith
  have hS := round_err24 dbl hp he (P + 32) 9 (by norm_num) hSb
  set S := dbl.round (P + 32) with hSdef
  norm_num at hS
  obtain ⟨hS1, hS2⟩ := abs_le.mp hS
  have hFb : |S| < (2 : ℚ) ^ (9 : Int) := by
    rw [abs_lt]; norm_num; constructor <;> linarith
  have hF := round_err24 binary32 (by decide) (by decide) S 9 (by norm_num) hFb
  norm_num at hF
  obtain ⟨hF1, hF2⟩ := abs_le.mp hF
  rw [abs_le]
  constructor <;> linarith

/-- Every conversion and operation of `readTempC` is exact: rounding the
operand to `float` and to `double`, the constant and the quotient to `double`,
and the result to `float` changes nothing, so the value is `n / 128`. -/
theorem readTempC_rounding_exact (dbl : FloatFormat) (hp : 24 ≤ dbl.prec)
    (he : dbl.emin ≤ -126) (n : Int) (h1 : -32768 ≤ n) (h2 : n ≤ 32767) :
    binary32.round (dbl.round (dbl.round (binary32.round (n : ℚ)) / dbl.round 128.0))
      = (n : ℚ) / 128 := by
  have hN1 : (-32768 : ℚ) ≤ (n : ℚ) := by exact_mod_cast h1
  have hN2 : (n : ℚ) ≤ 32767 := by exact_mod_cast h2
  have hNabs : |(n : ℚ)| ≤ 32768 := abs_le.mpr ⟨hN1, by linarith⟩
  have r1 : binary32.round (n : ℚ) = n :=
    round_int24 binary32 (by decide) (by decide) n (lt_of_le_of_lt hNabs (by norm_num))
  have r2 : dbl.round (n : ℚ) = n :=
    round_int24 dbl hp he n (lt_of_le_of_lt hNabs (by norm_num))
  have r3 : dbl.round 128.0 = 128 := by
    have := round_int24 dbl hp he 128 (by norm_num)
    norm_num at this ⊢
    exact this
  have hx : |(n : ℚ) / (2 : ℚ) ^ 7| < (2 : ℚ) ^ (9 : Int) := by
    rw [abs_lt]; norm_num; constructor <;> linarith
  have r4 := round_dyadic dbl n 7 9 (by omega) hx (by push_cast; omega)
  have r5 := round_dyadic binary32 n 7 9 (by decide) hx (by decide)
  norm_num at r4 r5
  rw [r1, r2, r3, r4, r5]

set_option maxRecDepth 100000 in
/-- Masking a byte with `0xF8` gives `0xC8` exactly when its upper five bits are `11001`. -/
theorem and_F8_eq_C8_iff (x : Nat) (h : x < 256) : x &&& 0xF8 = 0xC8 ↔ x / 8 = 25 := by
  revert x
  decide

/-- Assembling two bytes as `hi << 8 | lo` in 16 bits gives `hi * 256 + lo`. -/
theorem toUInt16_lor_bytes (hi lo : Nat) (h1 : hi < 256) (h2 : lo < 256) :
    toUInt16 (Int.lor ((toUInt16 ((toUInt16 (hi : Int) : Int) * 256) : Nat) : Int) (lo : Int))
      = hi * 256 + lo := by
  have e1 : toUInt16 (hi : Int) = hi := toUInt16_natCast hi (by omega)
  have e2 : toUInt16 ((hi : Int) * 256) = hi * 256 := by
    have : ((hi : Int) * 256) = ((hi * 256 : Nat) : Int) := by push_cast; ring
    rw [this]; exact toUInt16_natCast _ (by omega)
  have e3 : hi * 256 ||| lo = hi * 256 + lo := by
    have := @Nat.mul_add_lt_is_or 8 lo (by simpa using h2) hi
    simp only [Nat.reducePow] at this
    rw [Nat.mul_comm hi 256]; exact this.symm
  rw [e1, e2]
  show toUInt16 (((hi * 256 ||| lo : Nat)) : Int) = _
  rw [e3]; exact toUInt16_natCast _ (by omega)

/-- The method `init`, branch by branch, in terms of the identification read. -/
theorem init_eq (H : Header) (d : Adafruit_ADT7410) (w : TwoWire) :
    init H d w =
      if (read8 d (H.ADT7410_REG__ADT7410_ID % 256) w.begin).1 &&& 0xF8 ≠ 0xC8 then
        (false, (read8 d (H.ADT7410_REG__ADT7410_ID % 256) w.begin).2)
      else
        (true,
          ⟨(read8 d (H.ADT7410_REG__ADT7410_ID % 256) w.begin).2.log ++
              [BusOp.beginTransmission d._i2caddr,
               BusOp.write (H.ADT7410_REG__ADT7410_SWRST % 256),
               BusOp.endTransmission true,
               BusOp.beginTransmission d._i2caddr,
               BusOp.write (H.ADT7410_REG__ADT7410_CONFIG % 256),
               BusOp.write 0x80,
               BusOp.endTransmission true,
               BusOp.delay 10],
            (read8 d (H.ADT7410_REG__ADT7410_ID % 256) w.begin).2.status.tail.tail,
            (read8 d (H.ADT7410_REG__ADT7410_ID % 256) w.begin).2.rx⟩) := by
  simp only [init]
  split <;>
    simp [write8, delay, TwoWire.beginTransmission, TwoWire.write, TwoWire.endTransmission,
      TwoWire.record]

/-- The value of `readTempC` is the one its operations give when each is
rounded as the code rounds it, whatever format at least as fine as binary32
`double` has. -/
theorem readTempC_eq_rounded (H : Header) (dbl : FloatFormat) (hp : 24 ≤ dbl.prec)
    (he : dbl.emin ≤ -126) (d : Adafruit_ADT7410) (w : TwoWire) :
    (readTempC H d w).1 =
      binary32.round
        (dbl.round
          (dbl.round
            (binary32.round
              ((toInt16 (read16 d (H.ADT7410_REG__ADT7410_TEMPMSB % 256) w).1 : Int) : ℚ)) /
            dbl.round 128.0)) := by
  rw [readTempC_fst, readTempC_rounding_exact dbl hp he _ (toInt16_bounds _).1
    (toInt16_bounds _).2]

/-! ## Temperature conversions -/

/-- Claim C1: when the temperature-register read returns the raw value `v`, a
16-bit value, `readTempC` returns `int16(v) / 128` as an exact rational, where
`int16(v)` is `v` below 32768 and `v - 65536` from there on, and it leaves the
transport as that read left it; `v = 0x0190` gives 3.125 and `v = 0xFE70`
gives -3.125. -/
theorem readTempC_eq_int16_div_128 (H : Header) (d : Adafruit_ADT7410) (w : TwoWire) (v : Nat)
    (hv : (read16 d (H.ADT7410_REG__ADT7410_TEMPMSB % 256) w).1 = v) :
    v < 65536 ∧
    (readTempC H d w).1 = (if v < 32768 then (v : ℚ) else (v : ℚ) - 65536) / 128 ∧
    (readTempC H d w).2 = (read16 d (H.ADT7410_REG__ADT7410_TEMPMSB % 256) w).2 ∧
    (v = 0x0190 → (readTempC H d w).1 = 3.125) ∧
    (v = 0xFE70 → (readTempC H d w).1 = -3.125) := by
  have hlt : v < 65536 := hv ▸ read16_lt d _ w
  have hC : (readTempC H d w).1 = (if v < 32768 then (v : ℚ) else (v : ℚ) - 65536) / 128 := by
    rw [readTempC_fst, hv, toInt16_cast v hlt]
  refine ⟨hlt, hC, rfl, ?_, ?_⟩
  · intro e; rw [hC, e]; norm_num
  · intro e; rw [hC, e]; norm_num

/-- Claim C1 at two transports: one delivers the bytes `0x01, 0x90`, the other
`0xFE, 0x70`. -/
theorem readTempC_eq_int16_div_128_witness :
    ((read16 ⟨0x48⟩ (datasheet.ADT7410_REG__ADT7410_TEMPMSB % 256) ⟨[], [0], [0x01, 0x90]⟩).1
        = 0x0190 ∧
      (readTempC datasheet ⟨0x48⟩ ⟨[], [0], [0x01, 0x90]⟩).1 = 3.125) ∧
    ((read16 ⟨0x48⟩ (datasheet.ADT7410_REG__ADT7410_TEMPMSB % 256) ⟨[], [0], [0xFE, 0x70]⟩).1
        = 0xFE70 ∧
      (readTempC datasheet ⟨0x48⟩ ⟨[], [0], [0xFE, 0x70]⟩).1 = -3.125) :=
  ⟨⟨by decide,
    (readTempC_eq_int16_div_128 datasheet ⟨0x48⟩ ⟨[], [0], [0x01, 0x90]⟩ 0x0190
      (by decide)).2.2.2.1 rfl⟩,
   ⟨by decide,
    (readTempC_eq_int16_div_128 datasheet ⟨0x48⟩ ⟨[], [0], [0xFE, 0x70]⟩ 0xFE70
      (by decide)).2.2.2.2 rfl⟩⟩

/-- Claim C2 as stated fails: on a transport that delivers the bytes
`0x80, 0x00` the raw value is `0x8000`, `readTempC` returns -256 and
`readTempF` returns -7025459/16384, with `double` in binary64 as in binary32,
while `-256 * 9/5 + 32` is -2144/5. -/
theorem readTempF_ne_readTempC_mul_add :
    (read16 ⟨0x48⟩ (datasheet.ADT7410_REG__ADT7410_TEMPMSB % 256) ⟨[], [0], [0x80, 0x00]⟩).1
      = 0x8000 ∧
    (readTempC datasheet ⟨0x48⟩ ⟨[], [0], [0x80, 0x00]⟩).1 = -256 ∧
    (readTempC datasheet ⟨0x48⟩ ⟨[], [0], [0x80, 0x00]⟩).1 * 9 / 5 + 32 = -2144 / 5 ∧
    (readTempF datasheet binary64 ⟨0x48⟩ ⟨[], [0], [0x80, 0x00]⟩).1 = -7025459 / 16384 ∧
    (readTempF datasheet binary32 ⟨0x48⟩ ⟨[], [0], [0x80, 0x00]⟩).1 = -7025459 / 16384 ∧
    (readTempF datasheet binary64 ⟨0x48⟩ ⟨[], [0], [0x80, 0x00]⟩).1 ≠
      (readTempC datasheet ⟨0x48⟩ ⟨[], [0], [0x80, 0x00]⟩).1 * 9 / 5 + 32 ∧
    (readTempF datasheet binary32 ⟨0x48⟩ ⟨[], [0], [0x80, 0x00]⟩).1 ≠
      (readTempC datasheet ⟨0x48⟩ ⟨[], [0], [0x80, 0x00]⟩).1 * 9 / 5 + 32 := by
  have h : (read16 ⟨0x48⟩ (datasheet.ADT7410_REG__ADT7410_TEMPMSB % 256)
      ⟨[], [0], [0x80, 0x00]⟩).1 = 0x8000 := by decide
  have hC : (readTempC datasheet ⟨0x48⟩ ⟨[], [0], [0x80, 0x00]⟩).1 = -256 := by
    rw [readTempC_fst, h, toInt16_cast _ (by decide)]; norm_num
  have hF : (readTempF datasheet binary64 ⟨0x48⟩ ⟨[], [0], [0x80, 0x00]⟩).1
      = -7025459 / 16384 := by decide!
  have hG : (readTempF datasheet binary32 ⟨0x48⟩ ⟨[], [0], [0x80, 0x00]⟩).1
      = -7025459 / 16384 := by decide!
  refine ⟨h, hC, ?_, hF, hG, ?_, ?_⟩
  · rw [hC]; norm_num
  · rw [hF, hC]; norm_num
  · rw [hG, hC]; norm_num

/-- Claim C2, amended: when two temperature-register reads return the same raw
value `v`, the result of `readTempF` on one differs from the result of
`readTempC` on the other times 9/5 plus 32 by at most `2^-14`, hence by at most
`1e-4`, whatever format at least as fine as binary32 `double` has; in
particular on one and the same transport; `v = 0x0190` gives exactly 37.625 and
`v = 0xFE70` exactly 26.375, with `double` in binary64 as in binary32. -/
theorem readTempF_near_readTempC_mul_add (H : Header) (dbl : FloatFormat)
    (d : Adafruit_ADT7410) (w u : TwoWire) (v : Nat)
    (hp : 24 ≤ dbl.prec) (he : dbl.emin ≤ -126)
    (hv : (read16 d (H.ADT7410_REG__ADT7410_TEMPMSB % 256) w).1 = v)
    (hu : (read16 d (H.ADT7410_REG__ADT7410_TEMPMSB % 256) u).1 = v) :
    |(readTempF H dbl d w).1 - ((readTempC H d u).1 * 9 / 5 + 32)| ≤ 1 / 16384 ∧
    |(readTempF H dbl d w).1 - ((readTempC H d u).1 * 9 / 5 + 32)| ≤ 1 / 10000 ∧
    |(readTempF H dbl d w).1 - ((readTempC H d w).1 * 9 / 5 + 32)| ≤ 1 / 10000 ∧
    (readTempF H dbl d w).2 = (readTempC H d w).2 ∧
    (v = 0x0190 →
      (readTempF H binary64 d w).1 = 37.625 ∧ (readTempF H binary32 d w).1 = 37.625) ∧
    (v = 0xFE70 →
      (readTempF H binary64 d w).1 = 26.375 ∧ (readTempF H binary32 d w).1 = 26.375) := by
  have hb := toInt16_bounds v
  have key : ∀ x : TwoWire, (read16 d (H.ADT7410_REG__ADT7410_TEMPMSB % 256) x).1 = v →
      |(readTempF H dbl d w).1 - ((readTempC H d x).1 * 9 / 5 + 32)| ≤ 1 / 16384 := by
    intro x hx
    have e : (readTempC H d x).1 * 9 / 5 + 32 = ((toInt16 v : Int) : ℚ) * (9 / 640) + 32 := by
      rw [readTempC_fst, hx]; ring
    rw [e, readTempF_fst, hv]
    exact round_fahrenheit_err dbl hp he (toInt16 v) hb.1 hb.2
  have h1 := key u hu
  have h2 := key w hv
  refine ⟨h1, le_trans h1 (by norm_num), le_trans h2 (by norm_num), rfl, ?_, ?_⟩
  · intro e
    constructor
    · rw [readTempF_fst, hv, e]; decide!
    · rw [readTempF_fst, hv, e]; decide!
  · intro e
    constructor
    · rw [readTempF_fst, hv, e]; decide!
    · rw [readTempF_fst, hv, e]; decide!

/-- Claim C2, amended, with `double` in binary64 at two transports: one
delivers the bytes `0x01, 0x90`, the other `0xFE, 0x70`. -/
theorem readTempF_near_readTempC_mul_add_witness :
    ((read16 ⟨0x48⟩ (datasheet.ADT7410_REG__ADT7410_TEMPMSB % 256) ⟨[], [0], [0x01, 0x90]⟩).1
        = 0x0190 ∧
      (readTempF datasheet binary64 ⟨0x48⟩ ⟨[], [0], [0x01, 0x90]⟩).1 = 37.625) ∧
    ((read16 ⟨0x48⟩ (datasheet.ADT7410_REG__ADT7410_TEMPMSB % 256) ⟨[], [0], [0xFE, 0x70]⟩).1
        = 0xFE70 ∧
      |(readTempF datasheet binary64 ⟨0x48⟩ ⟨[], [0], [0xFE, 0x70]⟩).1 -
        ((readTempC datasheet ⟨0x48⟩ ⟨[], [0, 0], [0xFE, 0x70, 0x01]⟩).1 * 9 / 5 + 32)|
        ≤ 1 / 10000 ∧
      (readTempF datasheet binary64 ⟨0x48⟩ ⟨[], [0], [0xFE, 0x70]⟩).1 = 26.375) :=
  ⟨⟨by decide,
    ((readTempF_near_readTempC_mul_add datasheet binary64 ⟨0x48⟩ ⟨[], [0], [0x01, 0x90]⟩
      ⟨[], [0], [0x01, 0x90]⟩ 0x0190 (by decide) (by decide) (by decide)
      (by decide)).2.2.2.2.1 rfl).1⟩,
   ⟨by decide,
    (readTempF_near_readTempC_mul_add datasheet binary64 ⟨0x48⟩ ⟨[], [0], [0xFE, 0x70]⟩
      ⟨[], [0, 0], [0xFE, 0x70, 0x01]⟩ 0xFE70 (by decide) (by decide) (by decide)
      (by decide)).2.1,
    ((readTempF_near_readTempC_mul_add datasheet binary64 ⟨0x48⟩ ⟨[], [0], [0xFE, 0x70]⟩
      ⟨[], [0, 0], [0xFE, 0x70, 0x01]⟩ 0xFE70 (by decide) (by decide) (by decide)
      (by decide)).2.2.2.2.2 rfl).1⟩⟩

/-- Claim C3 as stated fails. On a transport that delivers the bytes
`0x01, 0x90` the raw value is `0x0190 = 400`, `readTempF` returns 37.625, and
`int16(400) * (9/1280) + 32` is 34.8125. On one that delivers `0x00, 0x01` the
raw value is 1 and `readTempF` returns 4196147/131072, which is neither
`9/1280 + 32` nor `9/640 + 32`. Both with `double` in binary64 as in
binary32. -/
theorem readTempF_ne_int16_mul_9_div_1280 :
    ((read16 ⟨0x48⟩ (datasheet.ADT7410_REG__ADT7410_TEMPMSB % 256) ⟨[], [0], [0x01, 0x90]⟩).1
        = 0x0190 ∧
      (readTempF datasheet binary64 ⟨0x48⟩ ⟨[], [0], [0x01, 0x90]⟩).1 = 37.625 ∧
      (readTempF datasheet binary32 ⟨0x48⟩ ⟨[], [0], [0x01, 0x90]⟩).1 = 37.625 ∧
      (if 0x0190 < 32768 then ((0x0190 : Nat) : ℚ) else ((0x0190 : Nat) : ℚ) - 65536)
          * (9 / 1280) + 32 = 34.8125 ∧
      (readTempF datasheet binary64 ⟨0x48⟩ ⟨[], [0], [0x01, 0x90]⟩).1 ≠
        (if 0x0190 < 32768 then ((0x0190 : Nat) : ℚ) else ((0x0190 : Nat) : ℚ) - 65536)
          * (9 / 1280) + 32 ∧
      (readTempF datasheet binary32 ⟨0x48⟩ ⟨[], [0], [0x01, 0x90]⟩).1 ≠
        (if 0x0190 < 32768 then ((0x0190 : Nat) : ℚ) else ((0x0190 : Nat) : ℚ) - 65536)
          * (9 / 1280) + 32) ∧
    ((read16 ⟨0x48⟩ (datasheet.ADT7410_REG__ADT7410_TEMPMSB % 256) ⟨[], [0], [0x00, 0x01]⟩).1
        = 0x0001 ∧
      (readTempF datasheet binary64 ⟨0x48⟩ ⟨[], [0], [0x00, 0x01]⟩).1 = 4196147 / 131072 ∧
      (readTempF datasheet binary32 ⟨0x48⟩ ⟨[], [0], [0x00, 0x01]⟩).1 = 4196147 / 131072 ∧
      (readTempF datasheet binary64 ⟨0x48⟩ ⟨[], [0], [0x00, 0x01]⟩).1 ≠
        (if 0x0001 < 32768 then ((0x0001 : Nat) : ℚ) else ((0x0001 : Nat) : ℚ) - 65536)
          * (9 / 1280) + 32 ∧
      (readTempF datasheet binary64 ⟨0x48⟩ ⟨[], [0], [0x00, 0x01]⟩).1 ≠
        (if 0x0001 < 32768 then ((0x0001 : Nat) : ℚ) else ((0x0001 : Nat) : ℚ) - 65536)
          * (9 / 640) + 32) := by
  have hF : (readTempF datasheet binary64 ⟨0x48⟩ ⟨[], [0], [0x01, 0x90]⟩).1 = 37.625 := by
    decide!
  have hG : (readTempF datasheet binary32 ⟨0x48⟩ ⟨[], [0], [0x01, 0x90]⟩).1 = 37.625 := by
    decide!
  have hF1 : (readTempF datasheet binary64 ⟨0x48⟩ ⟨[], [0], [0x00, 0x01]⟩).1
      = 4196147 / 131072 := by decide!
  have hG1 : (readTempF datasheet binary32 ⟨0x48⟩ ⟨[], [0], [0x00, 0x01]⟩).1
      = 4196147 / 131072 := by decide!
  refine ⟨⟨by decide, hF, hG, by norm_num, ?_, ?_⟩, ⟨by decide, hF1, hG1, ?_, ?_⟩⟩
  · rw [hF]; norm_num
  · rw [hG]; norm_num
  · rw [hF1]; norm_num
  · rw [hF1]; norm_num

/-- Claim C3, amended: when the temperature-register read returns the raw value
`v`, a 16-bit value, `readTempF` returns a value within `2^-14`, hence within
`1e-4`, of `int16(v) * (9/640) + 32` taken exactly, 9/640 being the constant
`0.0140625` of the code, whatever format at least as fine as binary32 `double`
has; it leaves the transport as that read left it; `v = 0x0190` gives exactly
37.625, with `double` in binary64 as in binary32. -/
theorem readTempF_near_int16_mul_9_div_640 (H : Header) (dbl : FloatFormat)
    (d : Adafruit_ADT7410) (w : TwoWire) (v : Nat)
    (hp : 24 ≤ dbl.prec) (he : dbl.emin ≤ -126)
    (hv : (read16 d (H.ADT7410_REG__ADT7410_TEMPMSB % 256) w).1 = v) :
    v < 65536 ∧
    |(readTempF H dbl d w).1 -
      ((if v < 32768 then (v : ℚ) else (v : ℚ) - 65536) * (9 / 640) + 32)| ≤ 1 / 16384 ∧
    |(readTempF H dbl d w).1 -
      ((if v < 32768 then (v : ℚ) else (v : ℚ) - 65536) * 0.0140625 + 32)| ≤ 1 / 10000 ∧
    (readTempF H dbl d w).2 = (read16 d (H.ADT7410_REG__ADT7410_TEMPMSB % 256) w).2 ∧
    (v = 0x0190 →
      (readTempF H binary64 d w).1 = 37.625 ∧ (readTempF H binary32 d w).1 = 37.625) := by
  have hlt : v < 65536 := hv ▸ read16_lt d _ w
  have hb := toInt16_bounds v
  have h1 : |(readTempF H dbl d w).1 -
      ((if v < 32768 then (v : ℚ) else (v : ℚ) - 65536) * (9 / 640) + 32)| ≤ 1 / 16384 := by
    rw [← toInt16_cast v hlt, readTempF_fst, hv]
    exact round_fahrenheit_err dbl hp he (toInt16 v) hb.1 hb.2
  have e : ((if v < 32768 then (v : ℚ) else (v : ℚ) - 65536) * 0.0140625 + 32)
      = ((if v < 32768 then (v : ℚ) else (v : ℚ) - 65536) * (9 / 640) + 32) := by
    norm_num
  refine ⟨hlt, h1, ?_, rfl, ?_⟩
  · rw [e]; exact le_trans h1 (by norm_num)
  · intro e
    constructor
    · rw [readTempF_fst, hv, e]; decide!
    · rw [readTempF_fst, hv, e]; decide!

/-- Claim C3, amended, with `double` in binary64 at a transport that delivers
the bytes `0xFE, 0x70`: the raw value is `0xFE70`, whose `int16_t` reading is
-400. -/
theorem readTempF_near_int16_mul_9_div_640_witness :
    (read16 ⟨0x48⟩ (datasheet.ADT7410_REG__ADT7410_TEMPMSB % 256) ⟨[], [0], [0xFE, 0x70]⟩).1
      = 0xFE70 ∧
    |(readTempF datasheet binary64 ⟨0x48⟩ ⟨[], [0], [0xFE, 0x70]⟩).1 -
      ((-400 : ℚ) * (9 / 640) + 32)| ≤ 1 / 16384 := by
  have h := readTempF_near_int16_mul_9_div_640 datasheet binary64 ⟨0x48⟩
    ⟨[], [0], [0xFE, 0x70]⟩ 0xFE70 (by decide) (by decide) (by decide)
  refine ⟨by decide, ?_⟩
  have h1 := h.2.1
  norm_num at h1 ⊢
  exact h1

/-! ## Initialisation -/

/-- Claim C4: when the identification-register read yields the byte `b`, `init`
returns true exactly when `b AND 0xF8 = 0xC8`; any other run whose byte has the
same upper five bits gets the same result; every `begin` overload returns what
`init` returns; `b = 0xC8` and `b = 0xC9` give true, `b = 0xD0` gives false. -/
theorem init_eq_true_iff (H : Header) (d : Adafruit_ADT7410) (w : TwoWire) (b : Nat)
    (hb : (read8 d (H.ADT7410_REG__ADT7410_ID % 256) w.begin).1 = b) :
    ((init H d w).1 = true ↔ b &&& 0xF8 = 0xC8) ∧
    ((init H d w).1 = false ↔ b &&& 0xF8 ≠ 0xC8) ∧
    (∀ (e : Adafruit_ADT7410) (u : TwoWire),
      (read8 e (H.ADT7410_REG__ADT7410_ID % 256) u.begin).1 / 8 = b / 8 →
        (init H e u).1 = (init H d w).1) ∧
    ((begin H w).1 = (init H ⟨H.ADT7410_I2CADDR_DEFAULT % 256⟩ w).1 ∧
      (beginWire H w).1 = (init H ⟨H.ADT7410_I2CADDR_DEFAULT % 256⟩ w).1 ∧
      (beginAddr H d._i2caddr w).1 = (init H d w).1 ∧
      (beginAddrWire H d._i2caddr w).1 = (init H d w).1) ∧
    (b = 0xC8 → (init H d w).1 = true) ∧
    (b = 0xC9 → (init H d w).1 = true) ∧
    (b = 0xD0 → (init H d w).1 = false) := by
  have key : ∀ (e : Adafruit_ADT7410) (u : TwoWire),
      ((init H e u).1 = true ↔
        (read8 e (H.ADT7410_REG__ADT7410_ID % 256) u.begin).1 &&& 0xF8 = 0xC8) := by
    intro e u
    rw [init_eq]
    split <;> simp_all
  have hT : (init H d w).1 = true ↔ b &&& 0xF8 = 0xC8 := by rw [key, hb]
  have hF : (init H d w).1 = false ↔ b &&& 0xF8 ≠ 0xC8 := by
    rw [Ne, ← hT]; simp
  have hlt : b < 256 := hb ▸ read8_lt d _ w.begin
  refine ⟨hT, hF, ?_, ⟨rfl, rfl, rfl, rfl⟩, ?_, ?_, ?_⟩
  · intro e u he
    have h1 := key e u
    rw [and_F8_eq_C8_iff _ (read8_lt e _ u.begin), he, ← and_F8_eq_C8_iff b hlt, ← hT] at h1
    exact Bool.eq_iff_iff.mpr h1
  · intro e; exact hT.mpr (by rw [e]; decide)
  · intro e; exact hT.mpr (by rw [e]; decide)
  · intro e; exact hF.mpr (by rw [e]; decide)

/-- Claim C4 at three transports whose identification read yields `0xC8`,
`0xC9` and `0xD0`. -/
theorem init_eq_true_iff_witness :
    ((read8 ⟨0x48⟩ (datasheet.ADT7410_REG__ADT7410_ID % 256)
        (TwoWire.begin ⟨[], [0], [0xC8, 0]⟩)).1 = 0xC8 ∧
      (init datasheet ⟨0x48⟩ ⟨[], [0], [0xC8, 0]⟩).1 = true) ∧
    ((read8 ⟨0x48⟩ (datasheet.ADT7410_REG__ADT7410_ID % 256)
        (TwoWire.begin ⟨[], [0], [0xC9, 0]⟩)).1 = 0xC9 ∧
      (init datasheet ⟨0x48⟩ ⟨[], [0], [0xC9, 0]⟩).1 = true) ∧
    ((read8 ⟨0x48⟩ (datasheet.ADT7410_REG__ADT7410_ID % 256)
        (TwoWire.begin ⟨[], [0], [0xD0, 0]⟩)).1 = 0xD0 ∧
      (init datasheet ⟨0x48⟩ ⟨[], [0], [0xD0, 0]⟩).1 = false) :=
  ⟨⟨by decide,
     (init_eq_true_iff datasheet ⟨0x48⟩ ⟨[], [0], [0xC8, 0]⟩ 0xC8 (by decide)).2.2.2.2.1 rfl⟩,
   ⟨by decide,
     (init_eq_true_iff datasheet ⟨0x48⟩ ⟨[], [0], [0xC9, 0]⟩ 0xC9 (by decide)).2.2.2.2.2.1 rfl⟩,
   ⟨by decide,
     (init_eq_true_iff datasheet ⟨0x48⟩ ⟨[], [0], [0xD0, 0]⟩ 0xD0 (by decide)).2.2.2.2.2.2 rfl⟩⟩

/-- Claim C5: whenever `init` returns true, the calls it made after the
identification read are, in this order and with nothing else: the reset
transaction (begin transmission to the stored address, write the software-reset
register address, end transmission), the configuration write (begin
transmission, write the configuration register address, write `0x80`, end
transmission), and `delay(10)`. -/
theorem init_true_ops (H : Header) (d : Adafruit_ADT7410) (w : TwoWire)
    (h : (init H d w).1 = true) :
    (init H d w).2.log =
      (read8 d (H.ADT7410_REG__ADT7410_ID % 256) w.begin).2.log ++
        [BusOp.beginTransmission d._i2caddr,
         BusOp.write (H.ADT7410_REG__ADT7410_SWRST % 256),
         BusOp.endTransmission true,
         BusOp.beginTransmission d._i2caddr,
         BusOp.write (H.ADT7410_REG__ADT7410_CONFIG % 256),
         BusOp.write 0x80,
         BusOp.endTransmission true,
         BusOp.delay 10] ∧
    (init H d w).2.log =
      w.log ++
        [BusOp.wireBegin,
         BusOp.beginTransmission d._i2caddr,
         BusOp.write (H.ADT7410_REG__ADT7410_ID % 256),
         BusOp.endTransmission false,
         BusOp.requestFrom d._i2caddr 2,
         BusOp.read,
         BusOp.beginTransmission d._i2caddr,
         BusOp.write (H.ADT7410_REG__ADT7410_SWRST % 256),
         BusOp.endTransmission true,
         BusOp.beginTransmission d._i2caddr,
         BusOp.write (H.ADT7410_REG__ADT7410_CONFIG % 256),
         BusOp.write 0x80,
         BusOp.endTransmission true,
         BusOp.delay 10] := by
  have hm : (read8 d (H.ADT7410_REG__ADT7410_ID % 256) w.begin).1 &&& 0xF8 = 0xC8 := by
    by_contra hne
    rw [init_eq, if_pos hne] at h
    exact Bool.false_ne_true h
  have hs : w.begin.nextStatus = 0 := by
    by_contra hne
    rw [read8_of_status_ne_zero d _ w.begin hne] at hm
    have h255 : (0xFF : Nat) &&& 0xF8 ≠ 0xC8 := by decide
    exact h255 hm
  have h1 : (init H d w).2.log =
      (read8 d (H.ADT7410_REG__ADT7410_ID % 256) w.begin).2.log ++
        [BusOp.beginTransmission d._i2caddr,
         BusOp.write (H.ADT7410_REG__ADT7410_SWRST % 256),
         BusOp.endTransmission true,
         BusOp.beginTransmission d._i2caddr,
         BusOp.write (H.ADT7410_REG__ADT7410_CONFIG % 256),
         BusOp.write 0x80,
         BusOp.endTransmission true,
         BusOp.delay 10] := by
    rw [init_eq, if_neg (not_not.mpr hm)]
  refine ⟨h1, ?_⟩
  rw [h1, read8_of_status_eq_zero d _ w.begin hs]
  simp [TwoWire.begin, TwoWire.record]

/-- Claim C5 at a transport whose identification read yields `0xC8`. -/
theorem init_true_ops_witness :
    (init datasheet ⟨0x48⟩ ⟨[], [0], [0xC8, 0]⟩).1 = true ∧
    (init datasheet ⟨0x48⟩ ⟨[], [0], [0xC8, 0]⟩).2.log =
      [BusOp.wireBegin, BusOp.beginTransmission 0x48, BusOp.write 0x0B,
       BusOp.endTransmission false, BusOp.requestFrom 0x48 2, BusOp.read,
       BusOp.beginTransmission 0x48, BusOp.write 0x2F, BusOp.endTransmission true,
       BusOp.beginTransmission 0x48, BusOp.write 0x03, BusOp.write 0x80,
       BusOp.endTransmission true, BusOp.delay 10] :=
  ⟨by decide, (init_true_ops datasheet ⟨0x48⟩ ⟨[], [0], [0xC8, 0]⟩ (by decide)).2⟩

/-- Claim C6: whenever the masked identification value differs from `0xC8`,
`init` returns false and leaves the transport as the identification read left
it; the calls it made are `begin`, the write phase of that read with the
identification register address as its only written byte, and the read request
and read when that phase succeeded: no reset, no configuration write, no
delay. -/
theorem init_mismatch_ops (H : Header) (d : Adafruit_ADT7410) (w : TwoWire)
    (h : (read8 d (H.ADT7410_REG__ADT7410_ID % 256) w.begin).1 &&& 0xF8 ≠ 0xC8) :
    init H d w = (false, (read8 d (H.ADT7410_REG__ADT7410_ID % 256) w.begin).2) ∧
    (init H d w).2.log =
      w.log ++
        [BusOp.wireBegin,
         BusOp.beginTransmission d._i2caddr,
         BusOp.write (H.ADT7410_REG__ADT7410_ID % 256),
         BusOp.endTransmission false] ++
        (if w.nextStatus = 0 then [BusOp.requestFrom d._i2caddr 2, BusOp.read] else []) ∧
    (∀ b : Nat, BusOp.write b ∈ (init H d w).2.log.drop w.log.length →
      b = H.ADT7410_REG__ADT7410_ID % 256) ∧
    (∀ ms : Nat, BusOp.delay ms ∉ (init H d w).2.log.drop w.log.length) ∧
    (BusOp.endTransmission true ∉ (init H d w).2.log.drop w.log.length) := by
  have h1 : init H d w = (false, (read8 d (H.ADT7410_REG__ADT7410_ID % 256) w.begin).2) := by
    rw [init_eq, if_pos h]
  have h2 : (init H d w).2.log =
      w.log ++
        ([BusOp.wireBegin,
         BusOp.beginTransmission d._i2caddr,
         BusOp.write (H.ADT7410_REG__ADT7410_ID % 256),
         BusOp.endTransmission false] ++
        (if w.nextStatus = 0 then [BusOp.requestFrom d._i2caddr 2, BusOp.read] else [])) := by
    rw [h1]
    by_cases hs : w.nextStatus = 0
    · have hs' : w.begin.nextStatus = 0 := hs
      rw [read8_of_status_eq_zero d _ w.begin hs', if_pos hs]
      simp [TwoWire.begin, TwoWire.record]
    · have hs' : w.begin.nextStatus ≠ 0 := hs
      rw [read8_of_status_ne_zero d _ w.begin hs', if_neg hs]
      simp [TwoWire.begin, TwoWire.record]
  refine ⟨h1, by rw [h2, List.append_assoc], ?_, ?_, ?_⟩
  · intro b hb
    rw [h2, List.drop_left] at hb
    by_cases hs : w.nextStatus = 0 <;> simp [hs] at hb <;> exact hb
  · intro ms hb
    rw [h2, List.drop_left] at hb
    by_cases hs : w.nextStatus = 0 <;> simp [hs] at hb
  · intro hb
    rw [h2, List.drop_left] at hb
    by_cases hs : w.nextStatus = 0 <;> simp [hs] at hb

/-- Claim C6 at a transport whose identification read yields `0xD0`. -/
theorem init_mismatch_ops_witness :
    (read8 ⟨0x48⟩ (datasheet.ADT7410_REG__ADT7410_ID % 256)
        (TwoWire.begin ⟨[], [0], [0xD0, 0]⟩)).1 &&& 0xF8 ≠ 0xC8 ∧
    init datasheet ⟨0x48⟩ ⟨[], [0], [0xD0, 0]⟩ =
      (false,
        ⟨[BusOp.wireBegin, BusOp.beginTransmission 0x48, BusOp.write 0x0B,
          BusOp.endTransmission false, BusOp.requestFrom 0x48 2, BusOp.read], [], [0]⟩) := by
  refine ⟨by decide, ?_⟩
  rw [(init_mismatch_ops datasheet ⟨0x48⟩ ⟨[], [0], [0xD0, 0]⟩ (by decide)).1]
  decide

/-- Claim C7: if the write phase of the identification-register read reports a
nonzero status, the 8-bit read yields `0xFF`, whose masked value `0xF8` is not
`0xC8`, and `init` returns false having made only the calls `begin` and that
write phase: no read request, no reset, no configuration write, no delay. -/
theorem init_false_of_status_ne_zero (H : Header) (d : Adafruit_ADT7410) (w : TwoWire)
    (h : w.nextStatus ≠ 0) :
    (read8 d (H.ADT7410_REG__ADT7410_ID % 256) w.begin).1 = 0xFF ∧
    (0xFF &&& 0xF8 = 0xF8 ∧ 0xF8 ≠ 0xC8) ∧
    (init H d w).1 = false ∧
    init H d w =
      (false,
        ⟨w.log ++
          [BusOp.wireBegin,
           BusOp.beginTransmission d._i2caddr,
           BusOp.write (H.ADT7410_REG__ADT7410_ID % 256),
           BusOp.endTransmission false],
         w.status.tail, w.rx⟩) := by
  have hs : w.begin.nextStatus ≠ 0 := h
  have hr := read8_of_status_ne_zero d (H.ADT7410_REG__ADT7410_ID % 256) w.begin hs
  have hi : init H d w =
      (false,
        ⟨w.log ++
          [BusOp.wireBegin,
           BusOp.beginTransmission d._i2caddr,
           BusOp.write (H.ADT7410_REG__ADT7410_ID % 256),
           BusOp.endTransmission false],
         w.status.tail, w.rx⟩) := by
    have h255 : (0xFF : Nat) &&& 0xF8 ≠ 0xC8 := by decide
    rw [init_eq, hr, if_pos h255]
    simp [TwoWire.begin, TwoWire.record]
  exact ⟨by rw [hr], ⟨by decide, by decide⟩, by rw [hi], hi⟩

/-- Claim C7 at a transport whose first `endTransmission` reports status 2,
with a device that would otherwise identify itself as `0xC8`. -/
theorem init_false_of_status_ne_zero_witness :
    TwoWire.nextStatus ⟨[], [2], [0xC8, 0]⟩ ≠ 0 ∧
    init datasheet ⟨0x48⟩ ⟨[], [2], [0xC8, 0]⟩ =
      (false,
        ⟨[BusOp.wireBegin, BusOp.beginTransmission 0x48, BusOp.write 0x0B,
          BusOp.endTransmission false], [], [0xC8, 0]⟩) :=
  ⟨by decide,
   (init_false_of_status_ne_zero datasheet ⟨0x48⟩ ⟨[], [2], [0xC8, 0]⟩ (by decide)).2.2.2⟩

/-! ## Transaction failures and the register primitives -/

/-- Claim C8: if the write phase of the temperature-register read reports a
nonzero status, `readTempC` returns exactly -1/128 = -0.0078125, and it returns
the same value on a transport `u` whose write phase succeeds and which delivers
the bytes `0xFF, 0xFF`, a genuine raw reading of `0xFFFF`. -/
theorem readTempC_failure_eq_reading_FFFF (H : Header) (d : Adafruit_ADT7410) (w u : TwoWire)
    (rest : List Int) (hw : w.nextStatus ≠ 0) (hu : u.nextStatus = 0)
    (hrx : u.rx = 0xFF :: 0xFF :: rest) :
    (read16 d (H.ADT7410_REG__ADT7410_TEMPMSB % 256) w).1 = 0xFFFF ∧
    (readTempC H d w).1 = -1 / 128 ∧
    (readTempC H d w).1 = -0.0078125 ∧
    (read16 d (H.ADT7410_REG__ADT7410_TEMPMSB % 256) u).1 = 0xFFFF ∧
    (read16 d (H.ADT7410_REG__ADT7410_TEMPMSB % 256) u).2.rx = rest ∧
    (readTempC H d u).1 = -1 / 128 ∧
    (readTempC H d w).1 = (readTempC H d u).1 := by
  have h1 : (read16 d (H.ADT7410_REG__ADT7410_TEMPMSB % 256) w).1 = 0xFFFF := by
    rw [read16_of_status_ne_zero d _ w hw]
  have h2 : (read16 d (H.ADT7410_REG__ADT7410_TEMPMSB % 256) u).1 = 0xFFFF := by
    rw [read16_of_status_eq_zero d _ u hu]
    have := toUInt16_lor_bytes 0xFF 0xFF (by decide) (by decide)
    simpa [TwoWire.nextRead, hrx] using this
  have h3 : (read16 d (H.ADT7410_REG__ADT7410_TEMPMSB % 256) u).2.rx = rest := by
    rw [read16_of_status_eq_zero d _ u hu]
    simp [hrx]
  have c : ∀ x : TwoWire, (read16 d (H.ADT7410_REG__ADT7410_TEMPMSB % 256) x).1 = 0xFFFF →
      (readTempC H d x).1 = -1 / 128 := by
    intro x hx
    rw [readTempC_fst, hx, toInt16_cast _ (by decide)]
    norm_num
  refine ⟨h1, c w h1, ?_, h2, h3, c u h2, by rw [c w h1, c u h2]⟩
  rw [c w h1]; norm_num

/-- Claim C8 at a transport whose write phase reports status 2 and at one that
delivers `0xFF, 0xFF`. -/
theorem readTempC_failure_eq_reading_FFFF_witness :
    TwoWire.nextStatus ⟨[], [2], [0x01, 0x90]⟩ ≠ 0 ∧
    TwoWire.nextStatus ⟨[], [0], [0xFF, 0xFF]⟩ = 0 ∧
    (readTempC datasheet ⟨0x48⟩ ⟨[], [2], [0x01, 0x90]⟩).1 = -1 / 128 ∧
    (readTempC datasheet ⟨0x48⟩ ⟨[], [0], [0xFF, 0xFF]⟩).1 = -1 / 128 :=
  have h := readTempC_failure_eq_reading_FFFF datasheet ⟨0x48⟩ ⟨[], [2], [0x01, 0x90]⟩
    ⟨[], [0], [0xFF, 0xFF]⟩ [] (by decide) (by decide) rfl
  ⟨by decide, by decide, h.2.1, h.2.2.2.2.2.1⟩

/-- Claim C9: for every register address, when the `endTransmission(false)` of
the write phase returns a nonzero status, `read8` returns `0xFF` and `read16`
returns `0xFFFF`, the only calls made are those of the write phase (no read
request, no read) and the bytes the transport holds are untouched; when the
status is 0, each primitive makes exactly one read request, for 2 bytes, then
one read (`read8`) or two reads (`read16`). -/
theorem read_primitives_by_status (d : Adafruit_ADT7410) (reg : Nat) (w : TwoWire) :
    (w.nextStatus ≠ 0 →
      read8 d reg w =
        (0xFF, ⟨w.log ++ [BusOp.beginTransmission d._i2caddr, BusOp.write reg,
                  BusOp.endTransmission false], w.status.tail, w.rx⟩) ∧
      read16 d reg w =
        (0xFFFF, ⟨w.log ++ [BusOp.beginTransmission d._i2caddr, BusOp.write reg,
                    BusOp.endTransmission false], w.status.tail, w.rx⟩)) ∧
    (w.nextStatus = 0 →
      (read8 d reg w).2.log =
        w.log ++ [BusOp.beginTransmission d._i2caddr, BusOp.write reg,
          BusOp.endTransmission false, BusOp.requestFrom d._i2caddr 2, BusOp.read] ∧
      (read16 d reg w).2.log =
        w.log ++ [BusOp.beginTransmission d._i2caddr, BusOp.write reg,
          BusOp.endTransmission false, BusOp.requestFrom d._i2caddr 2, BusOp.read,
          BusOp.read]) := by
  refine ⟨fun h => ⟨read8_of_status_ne_zero d reg w h, read16_of_status_ne_zero d reg w h⟩,
    fun h => ⟨?_, ?_⟩⟩
  · rw [read8_of_status_eq_zero d reg w h]
  · rw [read16_of_status_eq_zero d reg w h]

/-- Claim C9 at a transport that reports status 4 and at one that reports
status 0. -/
theorem read_primitives_by_status_witness :
    (TwoWire.nextStatus ⟨[], [4], [0x12, 0x34]⟩ ≠ 0 ∧
      read8 ⟨0x48⟩ 0x0B ⟨[], [4], [0x12, 0x34]⟩ =
        (0xFF, ⟨[BusOp.beginTransmission 0x48, BusOp.write 0x0B,
                  BusOp.endTransmission false], [], [0x12, 0x34]⟩) ∧
      read16 ⟨0x48⟩ 0x0B ⟨[], [4], [0x12, 0x34]⟩ =
        (0xFFFF, ⟨[BusOp.beginTransmission 0x48, BusOp.write 0x0B,
                    BusOp.endTransmission false], [], [0x12, 0x34]⟩)) ∧
    (TwoWire.nextStatus ⟨[], [0], [0x12, 0x34]⟩ = 0 ∧
      (read8 ⟨0x48⟩ 0x0B ⟨[], [0], [0x12, 0x34]⟩).2.log =
        [BusOp.beginTransmission 0x48, BusOp.write 0x0B, BusOp.endTransmission false,
          BusOp.requestFrom 0x48 2, BusOp.read] ∧
      (read16 ⟨0x48⟩ 0x0B ⟨[], [0], [0x12, 0x34]⟩).2.log =
        [BusOp.beginTransmission 0x48, BusOp.write 0x0B, BusOp.endTransmission false,
          BusOp.requestFrom 0x48 2, BusOp.read, BusOp.read]) :=
  ⟨⟨by decide,
     (read_primitives_by_status ⟨0x48⟩ 0x0B ⟨[], [4], [0x12, 0x34]⟩).1 (by decide)⟩,
   ⟨by decide,
     (read_primitives_by_status ⟨0x48⟩ 0x0B ⟨[], [0], [0x12, 0x34]⟩).2 (by decide)⟩⟩

/-- Claim C10: for every register address, when the write phase reports status
0 and the transport then delivers the bytes `first` and `second`, each in
0..255, `read16` consumes both in that order and returns
`first * 256 + second`, which is `first << 8 | second` and lies in 0..65535;
`read8` consumes only `first` and returns it. -/
theorem read16_big_endian (d : Adafruit_ADT7410) (reg : Nat) (w : TwoWire)
    (first second : Nat) (rest : List Int) (hs : w.nextStatus = 0)
    (hrx : w.rx = (first : Int) :: (second : Int) :: rest)
    (h1 : first < 256) (h2 : second < 256) :
    read16 d reg w =
      (first * 256 + second,
        ⟨w.log ++ [BusOp.beginTransmission d._i2caddr, BusOp.write reg,
            BusOp.endTransmission false, BusOp.requestFrom d._i2caddr 2, BusOp.read,
            BusOp.read], w.status.tail, rest⟩) ∧
    first * 256 + second = (first <<< 8) ||| second ∧
    first * 256 + second < 65536 ∧
    read8 d reg w =
      (first,
        ⟨w.log ++ [BusOp.beginTransmission d._i2caddr, BusOp.write reg,
            BusOp.endTransmission false, BusOp.requestFrom d._i2caddr 2, BusOp.read],
          w.status.tail, (second : Int) :: rest⟩) := by
  refine ⟨?_, ?_, by omega, ?_⟩
  · rw [read16_of_status_eq_zero d reg w hs]
    have := toUInt16_lor_bytes first second h1 h2
    simp only [TwoWire.nextRead, hrx, List.headD_cons, List.tail_cons]
    rw [this]
  · have := @Nat.mul_add_lt_is_or 8 second (by simpa using h2) first
    simp only [Nat.reducePow] at this
    rw [Nat.shiftLeft_eq, Nat.mul_comm first]
    simpa using this
  · rw [read8_of_status_eq_zero d reg w hs]
    simp only [TwoWire.nextRead, hrx, List.headD_cons, List.tail_cons]
    rw [toUInt8_natCast first h1]

/-- Claim C10 at a transport that delivers the bytes `0x12, 0x34`. -/
theorem read16_big_endian_witness :
    read16 ⟨0x48⟩ 0x00 ⟨[], [0], [0x12, 0x34, 0x56]⟩ =
      (0x1234,
        ⟨[BusOp.beginTransmission 0x48, BusOp.write 0x00, BusOp.endTransmission false,
          BusOp.requestFrom 0x48 2, BusOp.read, BusOp.read], [], [0x56]⟩) ∧
    read8 ⟨0x48⟩ 0x00 ⟨[], [0], [0x12, 0x34, 0x56]⟩ =
      (0x12,
        ⟨[BusOp.beginTransmission 0x48, BusOp.write 0x00, BusOp.endTransmission false,
          BusOp.requestFrom 0x48 2, BusOp.read], [], [0x34, 0x56]⟩) :=
  have h := read16_big_endian ⟨0x48⟩ 0x00 ⟨[], [0], [0x12, 0x34, 0x56]⟩ 0x12 0x34 [0x56]
    (by decide) rfl (by decide) (by decide)
  ⟨h.1, h.2.2.2⟩

end ADT7410
